import Mathlib

/-!
Shallow embedding of the hybrid retrieval engine of `DeaprtmentRAG`
(`src/rag/retriever.py`) and of the request validation layer
(`src/service/schemas.py`, `src/service/routes.py`).

Python floats are modelled as real numbers.  External collaborators that are
not part of the repository are passed in as parameters:

* the BM25 scoring function of the `rank_bm25` library (`getScores`),
* numpy's `np.argsort(scores)[::-1]` (`argsortDesc`), constrained by
  `ArgsortDescSpec` in the theorems,
* the Qdrant vector backend reply (`backend : Except String (List Hit)`,
  `Except.error` modelling a raised exception),
* the iteration order of the Python `set` `all_urls` built in
  `Retriever.search` (`allUrls : List String`, constrained by
  `ValidUrlOrder` in the theorems — CPython gives *some* enumeration of the
  set, which is exactly what the constraint says and nothing more).

Python's `list.sort(key=..., reverse=True)` is a stable descending sort; it
is modelled by `List.insertionSort` with the relation
`candLE a b ↔ b.hybrid_score ≤ a.hybrid_score`, which is the stable
descending insertion sort, extensionally equal to any stable descending
sort on the same key.
-/

namespace DeptRAG

/-- One entry of the hit dictionaries produced by `Retriever.semantic_search`
and `Retriever.bm25_search` (payload defaults already applied). -/
structure Hit where
  source_url : String
  title : String
  category : String
  score : ℝ

/-- One value of the `doc_texts` JSON mapping: title, full body text and
category of a crawled page. -/
structure DocRec where
  title : String
  text : String
  category : String

/-- A blank document record, used as the (unreachable) default of total
lookups. -/
def emptyDoc : DocRec := ⟨"", "", ""⟩

/-- The document snapshot `self.doc_texts`: a Python `dict` keyed by URL,
modelled as an insertion-ordered association list. -/
abbrev DocTexts := List (String × DocRec)

/-- Dictionary lookup `self.doc_texts.get(source_url)` —
`Retriever._get_full_doc`. -/
def get_full_doc (docs : DocTexts) (url : String) : Option DocRec :=
  (docs.find? (fun p => p.1 == url)).map (fun p => p.2)

/-- The final output unit of `Retriever.search` — dataclass
`RetrievedDocument` in the source. -/
structure RetrievedDocument where
  source_url : String
  title : String
  category : String
  full_text : String
  score : ℝ
  bm25_norm : ℝ
  sem_norm : ℝ
  match_type : String

/-! ### Tokenization (`Retriever._tokenize`)

`text.lower()` followed by `re.findall(r"[а-яёa-z0-9]+", text)` and the
filter `len(t) >= 2`.  Python's `str.lower` is modelled on the alphabets
the regular expression can ever match (ASCII letters and the Russian
Cyrillic block); characters outside those ranges are left unchanged, which
is harmless because the subsequent regular expression drops them. -/

/-- Lower-casing of one character as `str.lower` acts on the alphabets
relevant to the token regular expression. -/
def pyLower (c : Char) : Char :=
  if 'A' ≤ c ∧ c ≤ 'Z' then Char.ofNat (c.toNat + 32)
  else if 'А' ≤ c ∧ c ≤ 'Я' then Char.ofNat (c.toNat + 32)
  else if c = 'Ё' then 'ё'
  else c

/-- Membership in the character class `[а-яёa-z0-9]`. -/
def isWordChar (c : Char) : Bool :=
  ('a' ≤ c && c ≤ 'z') || ('0' ≤ c && c ≤ '9') || ('а' ≤ c && c ≤ 'я') || c == 'ё'

/-- Accumulator pass of `re.findall(r"[а-яёa-z0-9]+", ·)`: collects the
maximal runs of word characters (`cur` holds the current run reversed). -/
def wordRunsAux : List Char → List Char → List (List Char)
  | [], cur => if cur.isEmpty then [] else [cur.reverse]
  | c :: rest, cur =>
    if isWordChar c then wordRunsAux rest (c :: cur)
    else if cur.isEmpty then wordRunsAux rest []
    else cur.reverse :: wordRunsAux rest []

/-- All maximal runs of word characters, in order —
`re.findall(r"[а-яёa-z0-9]+", text)`. -/
def wordRuns (cs : List Char) : List (List Char) :=
  wordRunsAux cs []

/-- `Retriever._tokenize`: lower-case, extract the word runs, keep the
tokens of length at least 2. -/
def tokenize (s : String) : List String :=
  ((wordRuns (s.data.map pyLower)).filter (fun t => 2 ≤ t.length)).map
    (fun t => String.mk t)

/-! ### BM25 lexical search (`Retriever.bm25_search`) -/

/-- `self.doc_urls[idx]` — the URL at corpus position `idx` (doc_urls is
built from the keys of `doc_texts` in order). -/
def urlAt (docs : DocTexts) (i : Nat) : String :=
  (docs.getD i ("", emptyDoc)).1

/-- `self.doc_texts[url]` for `url = self.doc_urls[idx]`; total because in
the source the key always exists. -/
def docFor (docs : DocTexts) (i : Nat) : DocRec :=
  (get_full_doc docs (urlAt docs i)).getD emptyDoc

/-- Negation of the `continue` guard `if category and cat != category`:
`true` exactly when the candidate with category `cat` is kept. -/
def catKeep (category : Option String) (cat : String) : Bool :=
  match category with
  | none => true
  | some c => c == "" || cat == c

/-- The hit dictionary appended by `bm25_search` for corpus position `i`. -/
noncomputable def bm25HitOf (docs : DocTexts) (scores : List ℝ) (i : Nat) : Hit :=
  { source_url := urlAt docs i
    title := (docFor docs i).title
    category := (docFor docs i).category
    score := scores.getD i 0 }

/-- The `for idx in top_indices` loop of `bm25_search`: break on a
non-positive score, break when `top_k` hits are collected, skip (without
counting) candidates rejected by the category filter. -/
noncomputable def bm25Go (docs : DocTexts) (scores : List ℝ) (topK : Nat)
    (category : Option String) : List Nat → List Hit → List Hit
  | [], hits => hits
  | i :: rest, hits =>
    if scores.getD i 0 ≤ 0 then hits
    else if topK ≤ hits.length then hits
    else if catKeep category (docFor docs i).category then
      bm25Go docs scores topK category rest (hits ++ [bm25HitOf docs scores i])
    else
      bm25Go docs scores topK category rest hits

/-- `Retriever.bm25_search`.  `getScores` is `self.bm25.get_scores` (the
external `rank_bm25` library); `argsortDesc` is `np.argsort(scores)[::-1]`
(numpy). -/
noncomputable def bm25_search (docs : DocTexts) (getScores : List String → List ℝ)
    (argsortDesc : List ℝ → List Nat) (query : String) (topK : Nat)
    (category : Option String) : List Hit :=
  let tokens := tokenize query
  if tokens = [] then []
  else bm25Go docs (getScores tokens) topK category (argsortDesc (getScores tokens)) []

/-- The contract numpy guarantees for `np.argsort(scores)[::-1]`: a
permutation of the corpus positions along which scores are descending. -/
def ArgsortDescSpec (scores : List ℝ) (order : List Nat) : Prop :=
  List.Perm order (List.range scores.length) ∧
  order.Pairwise (fun i j => scores.getD j 0 ≤ scores.getD i 0)

/-! ### Semantic search (`Retriever.semantic_search`) -/

/-- `Retriever.semantic_search`: on any exception from the Qdrant client the
search returns the empty hit list; otherwise the reply points are mapped to
hit dictionaries (payload extraction with defaults is folded into `Hit`). -/
def semantic_search (backend : Except String (List Hit)) : List Hit :=
  match backend with
  | Except.error _ => []
  | Except.ok pts => pts

/-! ### Score collection, normalization and fusion (`Retriever.search`) -/

/-- Membership of `url` in the score dictionary built from `hits` (empty
URLs are never inserted). -/
def hasUrl (hits : List Hit) (url : String) : Bool :=
  url != "" && hits.any (fun h => h.source_url == url)

/-- The value stored for `url` by the dedup loop
`d[url] = max(d.get(url, 0), hit["score"])`: the maximum of `0` and all
scores carried by hits for that URL. -/
def dictScore (hits : List Hit) (url : String) : ℝ :=
  ((hits.filter (fun h => h.source_url == url)).map Hit.score).foldl max 0

/-- The logistic normalization `sigmoid_norm` applies pointwise:
`1.0 / (1.0 + math.exp(-k * (v - x0)))`. -/
noncomputable def sigmoid (k x0 v : ℝ) : ℝ :=
  1 / (1 + Real.exp (-k * (v - x0)))

/-- `norm_bm25.get(url, 0.0)` where `norm_bm25 = sigmoid_norm(bm25_scores)`
with the default steepness `k = 1.0` and midpoint `x0 = 3.0`. -/
noncomputable def normBm25Get (bmHits : List Hit) (url : String) : ℝ :=
  if hasUrl bmHits url then sigmoid 1 3 (dictScore bmHits url) else 0

/-- `norm_sem.get(url, 0.0)` where `norm_sem = dict(semantic_scores)`
(cosine similarities are used as they are). -/
def normSemGet (semHits : List Hit) (url : String) : ℝ :=
  if hasUrl semHits url then dictScore semHits url else 0

/-- `url_meta.get(url, {})` with the `.get(…, "")` defaults: title and
category of the first hit carrying `url` in `semantic_hits + bm25_hits`. -/
def urlMeta (semHits bmHits : List Hit) (url : String) : String × String :=
  match (semHits ++ bmHits).find? (fun h => h.source_url == url) with
  | some h => (h.title, h.category)
  | none => ("", "")

/-- A fused per-URL candidate: one element of `hybrid_results`. -/
structure FusedCandidate where
  url : String
  hybrid_score : ℝ
  bm25_norm : ℝ
  sem_norm : ℝ
  match_type : String
  title : String
  category : String

/-- The `hybrid_results` entry `Retriever.search` builds for one URL:
`hybrid = max(bm25, sem) + alpha * min(bm25, sem)` plus the match kind and
the metadata. -/
noncomputable def mkCandidate (semHits bmHits : List Hit) (alpha : ℝ)
    (url : String) : FusedCandidate where
  url := url
  hybrid_score :=
    max (normBm25Get bmHits url) (normSemGet semHits url)
      + alpha * min (normBm25Get bmHits url) (normSemGet semHits url)
  bm25_norm := normBm25Get bmHits url
  sem_norm := normSemGet semHits url
  match_type :=
    if hasUrl bmHits url && hasUrl semHits url then "hybrid"
    else if hasUrl bmHits url then "bm25"
    else "semantic"
  title := (urlMeta semHits bmHits url).1
  category := (urlMeta semHits bmHits url).2

/-- The sort key relation of `hybrid_results.sort(key=..., reverse=True)`:
`a` may stand before `b` when `b`'s hybrid score is not larger. -/
def candLE (a b : FusedCandidate) : Prop :=
  b.hybrid_score ≤ a.hybrid_score

noncomputable instance : DecidableRel candLE :=
  fun a b => inferInstanceAs (Decidable (b.hybrid_score ≤ a.hybrid_score))

instance : IsTotal FusedCandidate candLE :=
  ⟨fun a b => le_total b.hybrid_score a.hybrid_score⟩

instance : IsTrans FusedCandidate candLE :=
  ⟨fun _ _ _ h1 h2 => le_trans h2 h1⟩

/-- Python's stable descending sort of `hybrid_results`. -/
noncomputable def fusedSort (entries : List FusedCandidate) : List FusedCandidate :=
  List.insertionSort candLE entries

/-- Step 7 of `Retriever.search`: resolve the full text, with the sentinel
for a URL missing from the document snapshot. -/
def toRetrieved (docs : DocTexts) (item : FusedCandidate) : RetrievedDocument where
  source_url := item.url
  title := item.title
  category := item.category
  full_text :=
    match get_full_doc docs item.url with
    | some d => d.text
    | none => "(полный текст недоступен)"
  score := item.hybrid_score
  bm25_norm := item.bm25_norm
  sem_norm := item.sem_norm
  match_type := item.match_type

/-- Steps 2–7 of `Retriever.search`, starting from the two hit lists.
`allUrls` is the enumeration CPython produces when iterating the set
`all_urls = set(norm_sem) | set(norm_bm25)`. -/
noncomputable def searchFrom (docs : DocTexts) (semHits bmHits : List Hit)
    (allUrls : List String) (topK : Nat) (alpha : ℝ) : List RetrievedDocument :=
  ((fusedSort (allUrls.map (mkCandidate semHits bmHits alpha))).take topK).map
    (toRetrieved docs)

/-- The property `allUrls` has by construction: it enumerates, without
repetition, exactly the keys of the two score dictionaries. -/
def ValidUrlOrder (semHits bmHits : List Hit) (allUrls : List String) : Prop :=
  allUrls.Nodup ∧
  ∀ u, u ∈ allUrls ↔ (hasUrl semHits u = true ∨ hasUrl bmHits u = true)

/-- `SEMANTIC_TOP_K` of `rag/config.py` — the default `top_k` of both
`semantic_search` and `bm25_search`, used by `search` for its two inner
calls. -/
def SEMANTIC_TOP_K : Nat := 15

/-- `TOP_K` of `rag/config.py` — the default `top_k` of `search`. -/
def TOP_K : Nat := 5

/-- `Retriever.search`, end to end: run the two searches (the inner calls
use their default limit `SEMANTIC_TOP_K`), fuse, sort, truncate, resolve. -/
noncomputable def search (docs : DocTexts) (backend : Except String (List Hit))
    (getScores : List String → List ℝ) (argsortDesc : List ℝ → List Nat)
    (query : String) (topK : Nat) (category : Option String) (alpha : ℝ)
    (allUrls : List String) : List RetrievedDocument :=
  searchFrom docs (semantic_search backend)
    (bm25_search docs getScores argsortDesc query SEMANTIC_TOP_K category)
    allUrls topK alpha

/-- The degraded reference ranking of §7 of the specification: the same
fusion pipeline fed with no semantic hits at all. -/
noncomputable def lexicalOnlySearch (docs : DocTexts)
    (getScores : List String → List ℝ) (argsortDesc : List ℝ → List Nat)
    (query : String) (topK : Nat) (category : Option String) (alpha : ℝ)
    (allUrls : List String) : List RetrievedDocument :=
  searchFrom docs []
    (bm25_search docs getScores argsortDesc query SEMANTIC_TOP_K category)
    allUrls topK alpha

/-! ### Request validation (`service/schemas.py`, `service/routes.py`) -/

/-- `VALID_CATEGORIES` of `service/schemas.py`. -/
def VALID_CATEGORIES : List String := ["main", "news", "people"]

/-- A validated `AskRequest` (category already cleaned). -/
structure AskRequest where
  question : String
  top_k : Int
  category : Option String
deriving DecidableEq

/-- Python's `str.strip()`: drop leading and trailing whitespace. -/
def pyStrip (s : String) : String :=
  String.mk (((s.data.dropWhile Char.isWhitespace).reverse.dropWhile
    Char.isWhitespace).reverse)

/-- The `clean_category` before-validator: `None` stays `None`; a stripped
value that is empty or not a valid category becomes `None`; otherwise the
stripped value is kept. -/
def clean_category (v : Option String) : Option String :=
  match v with
  | none => none
  | some s =>
    let t := pyStrip s
    if t = "" ∨ t ∉ VALID_CATEGORIES then none else some t

/-- Pydantic validation of `AskRequest`: `question` must have length in
`[1, 1000]`, `top_k` must lie in `[1, 20]`; `category` is passed through
`clean_category` and never rejected. -/
def validateAskRequest (question : String) (top_k : Int)
    (category : Option String) : Except String AskRequest :=
  if question.length < 1 then Except.error "question too short"
  else if 1000 < question.length then Except.error "question too long"
  else if top_k < 1 then Except.error "top_k out of range"
  else if 20 < top_k then Except.error "top_k out of range"
  else Except.ok ⟨question, top_k, clean_category category⟩

/-- The `/ask` route: FastAPI runs the Pydantic validation before the
handler body, so the search `doSearch` executes only on a validated
request. -/
def askRoute (doSearch : AskRequest → List RetrievedDocument)
    (question : String) (top_k : Int) (category : Option String) :
    Except String (List RetrievedDocument) :=
  match validateAskRequest question top_k category with
  | Except.error e => Except.error e
  | Except.ok req => Except.ok (doSearch req)

/-! ## Supporting lemmas -/

theorem sigmoid_pos (k x0 v : ℝ) : 0 < sigmoid k x0 v := by
  have h := Real.exp_pos (-k * (v - x0))
  exact div_pos one_pos (by linarith)

theorem sigmoid_lt_one (k x0 v : ℝ) : sigmoid k x0 v < 1 := by
  have h := Real.exp_pos (-k * (v - x0))
  rw [sigmoid, div_lt_one (by linarith)]
  linarith

theorem sigmoid_le_sigmoid {r1 r2 : ℝ} (h : r2 ≤ r1) :
    sigmoid 1 3 r2 ≤ sigmoid 1 3 r1 := by
  have hexp : Real.exp (-1 * (r1 - 3)) ≤ Real.exp (-1 * (r2 - 3)) :=
    Real.exp_le_exp.mpr (by linarith)
  have hpos : (0:ℝ) < 1 + Real.exp (-1 * (r1 - 3)) := by
    have := Real.exp_pos (-1 * (r1 - 3)); linarith
  exact one_div_le_one_div_of_le hpos (by linarith)

/-- C6: the lexical normalization is the logistic function with the default
steepness `k = 1` and midpoint `x0 = 3`; it is monotone in the raw score,
bounded in `(0, 1)`, and the normalized value of a URL is a pointwise
function of that URL's own raw score — no min-max compression over the
sample. -/
theorem sigmoid_norm_logistic_monotone_bounded :
    (∀ v : ℝ, sigmoid 1 3 v = 1 / (1 + Real.exp (-1 * (v - 3)))) ∧
    (∀ r1 r2 : ℝ, r2 < r1 → sigmoid 1 3 r2 ≤ sigmoid 1 3 r1) ∧
    (∀ v : ℝ, 0 < sigmoid 1 3 v ∧ sigmoid 1 3 v < 1) ∧
    (∀ bmHits url, hasUrl bmHits url = true →
      normBm25Get bmHits url = sigmoid 1 3 (dictScore bmHits url)) := by
  refine ⟨fun v => rfl, fun r1 r2 h => sigmoid_le_sigmoid h.le,
    fun v => ⟨sigmoid_pos 1 3 v, sigmoid_lt_one 1 3 v⟩, fun bmHits url h => ?_⟩
  simp [normBm25Get, h]

/-- Witness for `sigmoid_norm_logistic_monotone_bounded` at concrete raw
scores `2 < 4` and a concrete one-hit dictionary. -/
theorem sigmoid_norm_logistic_monotone_bounded_witness :
    sigmoid 1 3 2 ≤ sigmoid 1 3 4 ∧
    normBm25Get [⟨"u", "", "", 5⟩] "u"
      = sigmoid 1 3 (dictScore [⟨"u", "", "", 5⟩] "u") :=
  ⟨sigmoid_norm_logistic_monotone_bounded.2.1 4 2 (by norm_num),
   sigmoid_norm_logistic_monotone_bounded.2.2.2 [⟨"u", "", "", 5⟩] "u" (by decide)⟩

/-- The `bm25_search` loop in closed form: stop at the first non-positive
score, keep the category survivors, truncate to what is left of `top_k` —
so candidates skipped by the category filter never consume the limit. -/
theorem bm25Go_eq (docs : DocTexts) (scores : List ℝ) (topK : Nat)
    (category : Option String) :
    ∀ (order : List Nat) (hits : List Hit),
      bm25Go docs scores topK category order hits
        = hits ++ ((((order.takeWhile fun i => !decide (scores.getD i 0 ≤ 0)).filter
              fun i => catKeep category (docFor docs i).category).take (topK - hits.length)).map
            (bm25HitOf docs scores)) := by
  intro order
  induction order with
  | nil => intro hits; simp [bm25Go]
  | cons i rest ih =>
    intro hits
    by_cases h1 : scores.getD i 0 ≤ 0
    · have hstep : bm25Go docs scores topK category (i :: rest) hits = hits := by
        simp only [bm25Go]
        rw [if_pos h1]
      rw [hstep, List.takeWhile_cons, decide_eq_true h1]
      simp
    · by_cases h2 : topK ≤ hits.length
      · have hstep : bm25Go docs scores topK category (i :: rest) hits = hits := by
          simp only [bm25Go]
          rw [if_neg h1, if_pos h2]
        have h0 : topK - hits.length = 0 := Nat.sub_eq_zero_of_le h2
        rw [hstep, h0]
        simp
      · have hm : topK - hits.length = (topK - (hits.length + 1)) + 1 := by omega
        by_cases h3 : catKeep category (docFor docs i).category = true
        · have hstep : bm25Go docs scores topK category (i :: rest) hits
              = bm25Go docs scores topK category rest (hits ++ [bm25HitOf docs scores i]) := by
            simp only [bm25Go]
            rw [if_neg h1, if_neg h2, if_pos h3]
          rw [hstep, ih, List.takeWhile_cons, decide_eq_false h1]
          simp only [Bool.not_false, if_pos rfl, List.filter_cons, h3, if_true]
          rw [hm, List.take_succ_cons]
          simp [List.length_append, Nat.sub_sub]
        · have hstep : bm25Go docs scores topK category (i :: rest) hits
              = bm25Go docs scores topK category rest hits := by
            simp only [bm25Go]
            rw [if_neg h1, if_neg h2, if_neg h3]
          rw [hstep, ih, List.takeWhile_cons, decide_eq_false h1]
          simp only [Bool.not_false, if_pos rfl, List.filter_cons, h3]
          simp [h3]

/-- C5: `bm25_search` returns hits ordered descending by raw score, every
returned hit has positive raw score (the loop stops at the first
non-positive candidate), at most `top_k` hits are returned and candidates
skipped by the category filter do not count against that limit (the filter
is applied before the truncation), and a query with no extractable tokens
yields the empty list rather than an error. -/
theorem bm25_search_contract (docs : DocTexts) (getScores : List String → List ℝ)
    (argsortDesc : List ℝ → List Nat) (query : String) (topK : Nat)
    (category : Option String)
    (hspec : ArgsortDescSpec (getScores (tokenize query))
      (argsortDesc (getScores (tokenize query)))) :
    (bm25_search docs getScores argsortDesc query topK category).Pairwise
      (fun a b => b.score ≤ a.score) ∧
    (∀ h ∈ bm25_search docs getScores argsortDesc query topK category, 0 < h.score) ∧
    (bm25_search docs getScores argsortDesc query topK category).length ≤ topK ∧
    (tokenize query ≠ [] →
      bm25_search docs getScores argsortDesc query topK category
        = (((((argsortDesc (getScores (tokenize query))).takeWhile
                fun i => !decide ((getScores (tokenize query)).getD i 0 ≤ 0)).filter
              fun i => catKeep category (docFor docs i).category).take topK).map
            (bm25HitOf docs (getScores (tokenize query))))) ∧
    (tokenize query = [] →
      bm25_search docs getScores argsortDesc query topK category = []) := by
  by_cases htok : tokenize query = []
  · simp [bm25_search, htok]
  · have heq : bm25_search docs getScores argsortDesc query topK category
        = (((((argsortDesc (getScores (tokenize query))).takeWhile
                fun i => !decide ((getScores (tokenize query)).getD i 0 ≤ 0)).filter
              fun i => catKeep category (docFor docs i).category).take topK).map
            (bm25HitOf docs (getScores (tokenize query)))) := by
      rw [bm25_search]
      simp only [htok, if_neg, ite_false]
      rw [bm25Go_eq]
      simp
    have hsub : ((((argsortDesc (getScores (tokenize query))).takeWhile
            fun i => !decide ((getScores (tokenize query)).getD i 0 ≤ 0)).filter
          fun i => catKeep category (docFor docs i).category).take topK).Sublist
        (argsortDesc (getScores (tokenize query))) :=
      (List.take_sublist _ _).trans
        ((List.filter_sublist _).trans (List.takeWhile_sublist _))
    refine ⟨?_, ?_, ?_, fun _ => heq, fun h => absurd h htok⟩
    · rw [heq]
      exact List.pairwise_map.mpr (List.Pairwise.sublist hsub hspec.2)
    · intro h hmem
      rw [heq] at hmem
      obtain ⟨i, hi, rfl⟩ := List.mem_map.mp hmem
      have hi2 : i ∈ (argsortDesc (getScores (tokenize query))).takeWhile
          fun i => !decide ((getScores (tokenize query)).getD i 0 ≤ 0) :=
        List.mem_filter.mp (List.mem_of_mem_take hi) |>.1
      have := List.mem_takeWhile_imp hi2
      simp only [Bool.not_eq_true', decide_eq_false_iff_not, not_le] at this
      exact this
    · rw [heq, List.length_map]
      exact List.length_take_le _ _

/-- Witness for `bm25_search_contract`: a concrete two-document corpus with
scores `[5, 1]` served in descending order. -/
theorem bm25_search_contract_witness :
    ArgsortDescSpec ((fun _ => [(5:ℝ), 1]) (tokenize "ab"))
        ((fun _ => [0, 1]) ((fun _ => [(5:ℝ), 1]) (tokenize "ab"))) ∧
    (bm25_search [("u1", ⟨"T1", "X1", "main"⟩), ("u2", ⟨"T2", "X2", "news"⟩)]
        (fun _ => [5, 1]) (fun _ => [0, 1]) "ab" 2 none).length ≤ 2 := by
  have h : ArgsortDescSpec ((fun _ => [(5:ℝ), 1]) (tokenize "ab"))
      ((fun _ => [0, 1]) ((fun _ => [(5:ℝ), 1]) (tokenize "ab"))) := by
    constructor
    · simp [List.range_succ]
    · simp only [List.pairwise_cons]
      refine ⟨?_, by simp⟩
      intro j hj
      simp only [List.mem_singleton] at hj
      subst hj
      norm_num
  exact ⟨h, (bm25_search_contract [("u1", ⟨"T1", "X1", "main"⟩), ("u2", ⟨"T2", "X2", "news"⟩)]
    (fun _ => [5, 1]) (fun _ => [0, 1]) "ab" 2 none h).2.2.1⟩

/-! ## Projection and membership helpers for the fusion pipeline -/

theorem mkCandidate_url (s b : List Hit) (a : ℝ) (u : String) :
    (mkCandidate s b a u).url = u := rfl

theorem mkCandidate_hybrid (s b : List Hit) (a : ℝ) (u : String) :
    (mkCandidate s b a u).hybrid_score
      = max (normBm25Get b u) (normSemGet s u)
        + a * min (normBm25Get b u) (normSemGet s u) := rfl

theorem mkCandidate_bm25 (s b : List Hit) (a : ℝ) (u : String) :
    (mkCandidate s b a u).bm25_norm = normBm25Get b u := rfl

theorem mkCandidate_sem (s b : List Hit) (a : ℝ) (u : String) :
    (mkCandidate s b a u).sem_norm = normSemGet s u := rfl

theorem mkCandidate_match (s b : List Hit) (a : ℝ) (u : String) :
    (mkCandidate s b a u).match_type
      = (if hasUrl b u && hasUrl s u then "hybrid"
         else if hasUrl b u then "bm25" else "semantic") := rfl

theorem toRetrieved_source_url (docs : DocTexts) (item : FusedCandidate) :
    (toRetrieved docs item).source_url = item.url := rfl

theorem toRetrieved_category (docs : DocTexts) (item : FusedCandidate) :
    (toRetrieved docs item).category = item.category := rfl

theorem toRetrieved_score (docs : DocTexts) (item : FusedCandidate) :
    (toRetrieved docs item).score = item.hybrid_score := rfl

theorem toRetrieved_bm25 (docs : DocTexts) (item : FusedCandidate) :
    (toRetrieved docs item).bm25_norm = item.bm25_norm := rfl

theorem toRetrieved_sem (docs : DocTexts) (item : FusedCandidate) :
    (toRetrieved docs item).sem_norm = item.sem_norm := rfl

theorem toRetrieved_match (docs : DocTexts) (item : FusedCandidate) :
    (toRetrieved docs item).match_type = item.match_type := rfl

theorem toRetrieved_full_text (docs : DocTexts) (item : FusedCandidate) :
    (toRetrieved docs item).full_text
      = (match get_full_doc docs item.url with
         | some d => d.text
         | none => "(полный текст недоступен)") := rfl

theorem mem_searchFrom {docs : DocTexts} {semHits bmHits : List Hit}
    {allUrls : List String} {topK : Nat} {alpha : ℝ} {d : RetrievedDocument}
    (hd : d ∈ searchFrom docs semHits bmHits allUrls topK alpha) :
    ∃ u ∈ allUrls, d = toRetrieved docs (mkCandidate semHits bmHits alpha u) := by
  obtain ⟨item, hitem, rfl⟩ := List.mem_map.mp hd
  have h1 : item ∈ fusedSort (allUrls.map (mkCandidate semHits bmHits alpha)) :=
    List.mem_of_mem_take hitem
  have h2 : item ∈ allUrls.map (mkCandidate semHits bmHits alpha) :=
    (List.mem_insertionSort _).mp h1
  obtain ⟨u, hu, rfl⟩ := List.mem_map.mp h2
  exact ⟨u, hu, rfl⟩

theorem searchFrom_map_source_url (docs : DocTexts) (semHits bmHits : List Hit)
    (allUrls : List String) (topK : Nat) (alpha : ℝ) :
    (searchFrom docs semHits bmHits allUrls topK alpha).map RetrievedDocument.source_url
      = ((fusedSort (allUrls.map (mkCandidate semHits bmHits alpha))).take topK).map
          FusedCandidate.url := by
  rw [searchFrom, List.map_map]
  rfl

/-! ## Bounds on the score dictionaries and the normalizations -/

theorem foldl_max_init_le (l : List ℝ) : ∀ a : ℝ, a ≤ l.foldl max a := by
  induction l with
  | nil => intro a; simp
  | cons x xs ih =>
    intro a
    exact le_trans (le_max_left a x) (ih (max a x))

theorem foldl_max_le (c : ℝ) :
    ∀ (l : List ℝ) (a : ℝ), a ≤ c → (∀ x ∈ l, x ≤ c) → l.foldl max a ≤ c := by
  intro l
  induction l with
  | nil => intro a ha _; simpa using ha
  | cons x xs ih =>
    intro a ha hx
    exact ih (max a x) (max_le ha (hx x (List.mem_cons_self _ _)))
      (fun y hy => hx y (List.mem_cons_of_mem _ hy))

theorem dictScore_nonneg (hits : List Hit) (u : String) : 0 ≤ dictScore hits u :=
  foldl_max_init_le _ 0

theorem dictScore_le_one (hits : List Hit) (u : String)
    (hs : ∀ h ∈ hits, h.score ≤ 1) : dictScore hits u ≤ 1 := by
  refine foldl_max_le 1 _ 0 (by norm_num) ?_
  intro x hx
  obtain ⟨h, hh, rfl⟩ := List.mem_map.mp hx
  exact hs h (List.mem_of_mem_filter hh)

theorem normBm25Get_nonneg (b : List Hit) (u : String) : 0 ≤ normBm25Get b u := by
  rw [normBm25Get]
  split
  · exact (sigmoid_pos 1 3 _).le
  · exact le_refl 0

theorem normBm25Get_lt_one (b : List Hit) (u : String) : normBm25Get b u < 1 := by
  rw [normBm25Get]
  split
  · exact sigmoid_lt_one 1 3 _
  · norm_num

theorem normSemGet_nonneg (s : List Hit) (u : String) : 0 ≤ normSemGet s u := by
  rw [normSemGet]
  split
  · exact dictScore_nonneg s u
  · exact le_refl 0

theorem normSemGet_le_one (s : List Hit) (u : String)
    (hs : ∀ h ∈ s, h.score ≤ 1) : normSemGet s u ≤ 1 := by
  rw [normSemGet]
  split
  · exact dictScore_le_one s u hs
  · norm_num

theorem hasUrl_iff (hits : List Hit) (u : String) :
    hasUrl hits u = true ↔ u ≠ "" ∧ ∃ h ∈ hits, h.source_url = u := by
  simp [hasUrl, List.any_eq_true, bne_iff_ne, beq_iff_eq, Bool.and_eq_true]

theorem hasUrl_nil (u : String) : hasUrl [] u = false := by
  simp [hasUrl]

theorem ne_empty_of_hasUrl {hits : List Hit} {u : String}
    (h : hasUrl hits u = true) : u ≠ "" :=
  ((hasUrl_iff hits u).mp h).1

/-! ## Claim C7: output length is bounded by `top_k` -/

/-- C7: for every valid input and every state of the two hit sources, the
list returned by `search` has length at most `top_k`. -/
theorem search_length_le_top_k (docs : DocTexts) (backend : Except String (List Hit))
    (getScores : List String → List ℝ) (argsortDesc : List ℝ → List Nat)
    (query : String) (topK : Nat) (category : Option String) (alpha : ℝ)
    (allUrls : List String) (htop : 1 ≤ topK) :
    (search docs backend getScores argsortDesc query topK category alpha allUrls).length
      ≤ topK := by
  rw [search, searchFrom, List.length_map]
  exact List.length_take_le _ _

/-- Witness for `search_length_le_top_k` on a concrete empty state with
`top_k = 1`. -/
theorem search_length_le_top_k_witness :
    1 ≤ 1 ∧
    (search [] (Except.ok []) (fun _ => []) (fun _ => []) "q" 1 none 0 []).length ≤ 1 :=
  ⟨by decide,
   search_length_le_top_k [] (Except.ok []) (fun _ => []) (fun _ => []) "q" 1 none 0 []
     (by decide)⟩

/-! ## Claim C9: stale URLs resolve to the sentinel -/

/-- C9: resolution never drops a ranked document or aborts — the returned
documents are exactly the `top_k` leading fused candidates in ranked order,
and every returned URL that is absent from the document snapshot carries
the sentinel placeholder as `full_text`. -/
theorem stale_url_resolves_to_sentinel (docs : DocTexts) (semHits bmHits : List Hit)
    (allUrls : List String) (topK : Nat) (alpha : ℝ) :
    (searchFrom docs semHits bmHits allUrls topK alpha).map RetrievedDocument.source_url
      = ((fusedSort (allUrls.map (mkCandidate semHits bmHits alpha))).take topK).map
          FusedCandidate.url ∧
    ∀ d ∈ searchFrom docs semHits bmHits allUrls topK alpha,
      get_full_doc docs d.source_url = none →
      d.full_text = "(полный текст недоступен)" := by
  refine ⟨searchFrom_map_source_url docs semHits bmHits allUrls topK alpha, ?_⟩
  intro d hd hnone
  obtain ⟨item, hitem, rfl⟩ := List.mem_map.mp hd
  rw [toRetrieved_source_url] at hnone
  rw [toRetrieved_full_text, hnone]

/-! ## Concrete fixtures used by witnesses -/

/-- A concrete semantic hit with similarity `1`. -/
def hitX : Hit := ⟨"x", "tx", "cx", 1⟩

/-- Singleton insertion sort is the identity. -/
theorem fusedSort_singleton (c : FusedCandidate) : fusedSort [c] = [c] := by
  simp [fusedSort, List.insertionSort, List.orderedInsert]

theorem validUrlOrder_hitX : ValidUrlOrder [hitX] [] ["x"] := by
  refine ⟨by decide, fun u => ?_⟩
  constructor
  · intro hu
    rw [List.mem_singleton] at hu
    subst hu
    left
    rw [hasUrl_iff]
    exact ⟨by decide, hitX, List.mem_singleton_self _, rfl⟩
  · rintro (h | h)
    · obtain ⟨-, h, hh, rfl⟩ := (hasUrl_iff _ _).mp h
      rw [List.mem_singleton] at hh
      subst hh
      simp [hitX]
    · rw [hasUrl_nil] at h
      cases h

/-- Witness for `stale_url_resolves_to_sentinel`: a one-hit search against
an empty document snapshot returns that document with the sentinel text. -/
theorem stale_url_resolves_to_sentinel_witness :
    toRetrieved [] (mkCandidate [hitX] [] 0 "x") ∈ searchFrom [] [hitX] [] ["x"] 1 0 ∧
    get_full_doc [] (toRetrieved [] (mkCandidate [hitX] [] 0 "x")).source_url = none ∧
    (toRetrieved [] (mkCandidate [hitX] [] 0 "x")).full_text
      = "(полный текст недоступен)" := by
  have hmem : toRetrieved [] (mkCandidate [hitX] [] 0 "x")
      ∈ searchFrom [] [hitX] [] ["x"] 1 0 := by
    rw [searchFrom]
    simp [fusedSort_singleton]
  have hnone : get_full_doc [] (toRetrieved [] (mkCandidate [hitX] [] 0 "x")).source_url
      = none := rfl
  exact ⟨hmem, hnone,
    (stale_url_resolves_to_sentinel [] [hitX] [] ["x"] 1 0).2 _ hmem hnone⟩

/-! ## Claim C10: score bounds, non-empty and distinct URLs -/

/-- C10: with `alpha ∈ [0,1]` and all backend similarities in `[0,1]`,
every returned document has `bm25_norm ∈ [0,1)` and `sem_norm ∈ [0,1]`, its
score is `max + alpha * min` of the two norms and so lies in
`[0, 1 + alpha]` (it may exceed 1); every returned URL is non-empty and
appears at most once. -/
theorem search_score_bounds_and_url_uniqueness
    (docs : DocTexts) (semHits bmHits : List Hit) (allUrls : List String)
    (topK : Nat) (alpha : ℝ) (h0 : 0 ≤ alpha) (h1 : alpha ≤ 1)
    (hsem : ∀ h ∈ semHits, h.score ≤ 1)
    (hvalid : ValidUrlOrder semHits bmHits allUrls) :
    (∀ d ∈ searchFrom docs semHits bmHits allUrls topK alpha,
      (0 ≤ d.bm25_norm ∧ d.bm25_norm < 1) ∧
      (0 ≤ d.sem_norm ∧ d.sem_norm ≤ 1) ∧
      d.score = max d.bm25_norm d.sem_norm + alpha * min d.bm25_norm d.sem_norm ∧
      0 ≤ d.score ∧ d.score ≤ 1 + alpha ∧
      d.source_url ≠ "") ∧
    ((searchFrom docs semHits bmHits allUrls topK alpha).map
        RetrievedDocument.source_url).Nodup := by
  constructor
  · intro d hd
    obtain ⟨u, hu, rfl⟩ := mem_searchFrom hd
    have hb0 := normBm25Get_nonneg bmHits u
    have hb1 := normBm25Get_lt_one bmHits u
    have hs0 := normSemGet_nonneg semHits u
    have hs1 := normSemGet_le_one semHits u hsem
    have hurlne : u ≠ "" := by
      rcases (hvalid.2 u).mp hu with h | h
      exacts [ne_empty_of_hasUrl h, ne_empty_of_hasUrl h]
    simp only [toRetrieved_bm25, toRetrieved_sem, toRetrieved_score,
      toRetrieved_source_url, mkCandidate_bm25, mkCandidate_sem,
      mkCandidate_hybrid, mkCandidate_url]
    refine ⟨⟨hb0, hb1⟩, ⟨hs0, hs1⟩, trivial, ?_, ?_, hurlne⟩
    · have hmax : 0 ≤ max (normBm25Get bmHits u) (normSemGet semHits u) :=
        le_max_of_le_left hb0
      have hmin : 0 ≤ min (normBm25Get bmHits u) (normSemGet semHits u) :=
        le_min hb0 hs0
      nlinarith
    · have hmax1 : max (normBm25Get bmHits u) (normSemGet semHits u) ≤ 1 :=
        max_le hb1.le hs1
      have hmin1 : min (normBm25Get bmHits u) (normSemGet semHits u) ≤ 1 :=
        min_le_of_left_le hb1.le
      have hmin0 : 0 ≤ min (normBm25Get bmHits u) (normSemGet semHits u) :=
        le_min hb0 hs0
      nlinarith
  · rw [searchFrom_map_source_url]
    have hent : List.map FusedCandidate.url
        (List.map (mkCandidate semHits bmHits alpha) allUrls) = allUrls := by
      rw [List.map_map]
      have hcomp : (FusedCandidate.url ∘ mkCandidate semHits bmHits alpha) = id := rfl
      rw [hcomp, List.map_id]
    have hperm : (List.map FusedCandidate.url
        (fusedSort (allUrls.map (mkCandidate semHits bmHits alpha)))).Perm allUrls := by
      have h := (List.perm_insertionSort candLE
        (allUrls.map (mkCandidate semHits bmHits alpha))).map FusedCandidate.url
      rwa [hent] at h
    have hnodup : (List.map FusedCandidate.url
        (fusedSort (allUrls.map (mkCandidate semHits bmHits alpha)))).Nodup :=
      hperm.nodup_iff.mpr hvalid.1
    rw [List.map_take]
    exact hnodup.sublist (List.take_sublist _ _)

/-- Witness for `search_score_bounds_and_url_uniqueness` at a concrete
one-hit state with `alpha = 0`. -/
theorem search_score_bounds_and_url_uniqueness_witness :
    (0:ℝ) ≤ 0 ∧ (0:ℝ) ≤ 1 ∧
    ((searchFrom [] [hitX] [] ["x"] 1 0).map RetrievedDocument.source_url).Nodup := by
  refine ⟨le_refl 0, by norm_num, ?_⟩
  exact (search_score_bounds_and_url_uniqueness [] [hitX] [] ["x"] 1 0
    (le_refl 0) (by norm_num)
    (by intro h hh; rw [List.mem_singleton] at hh; subst hh; norm_num [hitX])
    validUrlOrder_hitX).2

/-! ## Claim C3: backend failure degrades to lexical-only -/

theorem mkCandidate_category (s b : List Hit) (a : ℝ) (u : String) :
    (mkCandidate s b a u).category = (urlMeta s b u).2 := rfl

theorem validUrlOrder_single_bm (h : Hit) (hne : h.source_url ≠ "") :
    ValidUrlOrder [] [h] [h.source_url] := by
  refine ⟨by simp, fun u => ?_⟩
  constructor
  · intro hu
    rw [List.mem_singleton] at hu
    subst hu
    right
    rw [hasUrl_iff]
    exact ⟨hne, h, List.mem_singleton_self _, rfl⟩
  · rintro (hfalse | hh)
    · rw [hasUrl_nil] at hfalse
      cases hfalse
    · obtain ⟨-, h2, hh2, heq⟩ := (hasUrl_iff _ _).mp hh
      rw [List.mem_singleton] at hh2
      subst hh2
      rw [List.mem_singleton]
      exact heq.symm

/-- Evaluation of `bm25_search` on a concrete one-document corpus, for any
category filter that keeps the category `"main"`. -/
theorem bm25_search_fixture_gen (category : Option String)
    (hk : catKeep category "main" = true) :
    bm25_search [("u1", ⟨"T1", "X1", "main"⟩)] (fun _ => [5]) (fun _ => [0]) "ab"
      SEMANTIC_TOP_K category = [⟨"u1", "T1", "main", 5⟩] := by
  have htok : tokenize "ab" = ["ab"] := by decide
  have hdoc : docFor [("u1", ⟨"T1", "X1", "main"⟩)] 0 = ⟨"T1", "X1", "main"⟩ := rfl
  have hhit : bm25HitOf [("u1", ⟨"T1", "X1", "main"⟩)] [5] 0 = ⟨"u1", "T1", "main", 5⟩ := rfl
  rw [bm25_search]
  simp only [htok]
  rw [if_neg (show ¬(["ab"] = ([] : List String)) by decide)]
  rw [bm25Go_eq]
  rw [List.takeWhile_cons,
    decide_eq_false (show ¬((([(5:ℝ)]).getD 0 0) ≤ 0) by norm_num)]
  simp only [Bool.not_false, if_pos rfl, List.takeWhile_nil, List.filter_cons,
    List.filter_nil, hdoc, hk, if_true, List.nil_append]
  simp [SEMANTIC_TOP_K, hhit]

/-- C3: when the vector backend raises, `semantic_search` returns the empty
hit list instead of propagating the error, and `search` degrades to the
lexical-only ranking: its output is exactly that of the same pipeline run
with no semantic hits for the same query, `top_k` and category, and every
returned document carries the lexical match kind `"bm25"`. -/
theorem backend_error_degrades_to_lexical (docs : DocTexts) (err : String)
    (getScores : List String → List ℝ) (argsortDesc : List ℝ → List Nat)
    (query : String) (topK : Nat) (category : Option String) (alpha : ℝ)
    (allUrls : List String)
    (hvalid : ValidUrlOrder []
      (bm25_search docs getScores argsortDesc query SEMANTIC_TOP_K category) allUrls) :
    semantic_search (Except.error err) = [] ∧
    search docs (Except.error err) getScores argsortDesc query topK category alpha allUrls
      = lexicalOnlySearch docs getScores argsortDesc query topK category alpha allUrls ∧
    ∀ d ∈ search docs (Except.error err) getScores argsortDesc query topK category alpha
        allUrls,
      d.match_type = "bm25" := by
  refine ⟨rfl, rfl, ?_⟩
  intro d hd
  rw [search, show semantic_search (Except.error err) = ([] : List Hit) from rfl] at hd
  obtain ⟨u, hu, rfl⟩ := mem_searchFrom hd
  have hbm : hasUrl (bm25_search docs getScores argsortDesc query SEMANTIC_TOP_K category) u
      = true := by
    rcases (hvalid.2 u).mp hu with h | h
    · rw [hasUrl_nil] at h
      cases h
    · exact h
  rw [toRetrieved_match, mkCandidate_match, hasUrl_nil, hbm]
  simp

/-- Witness for `backend_error_degrades_to_lexical`: a concrete raised
backend over a one-document corpus. -/
theorem backend_error_degrades_to_lexical_witness :
    semantic_search (Except.error "connection refused") = [] ∧
    search [("u1", ⟨"T1", "X1", "main"⟩)] (Except.error "connection refused")
        (fun _ => [5]) (fun _ => [0]) "ab" 1 none 0 ["u1"]
      = lexicalOnlySearch [("u1", ⟨"T1", "X1", "main"⟩)] (fun _ => [5]) (fun _ => [0])
          "ab" 1 none 0 ["u1"] := by
  have hvalid : ValidUrlOrder []
      (bm25_search [("u1", ⟨"T1", "X1", "main"⟩)] (fun _ => [5]) (fun _ => [0]) "ab"
        SEMANTIC_TOP_K none) ["u1"] := by
    rw [bm25_search_fixture_gen none rfl]
    exact validUrlOrder_single_bm ⟨"u1", "T1", "main", 5⟩ (by decide)
  have h := backend_error_degrades_to_lexical [("u1", ⟨"T1", "X1", "main"⟩)]
    "connection refused" (fun _ => [5]) (fun _ => [0]) "ab" 1 none 0 ["u1"] hvalid
  exact ⟨h.1, h.2.1⟩

/-! ## Claim C8: the category filter is sound -/

/-- Every hit returned by `bm25_search` under a non-blank category filter
carries that category. -/
theorem bm25_search_category (docs : DocTexts) (getScores : List String → List ℝ)
    (argsortDesc : List ℝ → List Nat) (query : String) (topK : Nat) (c : String)
    (hc : c ≠ "") :
    ∀ h ∈ bm25_search docs getScores argsortDesc query topK (some c),
      h.category = c := by
  intro h hh
  rw [bm25_search] at hh
  by_cases htok : tokenize query = []
  · simp only [htok, if_pos rfl] at hh
    cases hh
  · simp only [if_neg htok] at hh
    rw [bm25Go_eq] at hh
    simp only [List.nil_append] at hh
    obtain ⟨i, hi, rfl⟩ := List.mem_map.mp hh
    have hkeep : catKeep (some c) (docFor docs i).category = true :=
      (List.mem_filter.mp (List.mem_of_mem_take hi)).2
    rw [catKeep] at hkeep
    rcases Bool.or_eq_true_iff.mp hkeep with hcbl | hcat
    · exact absurd (beq_iff_eq.mp hcbl) hc
    · exact beq_iff_eq.mp hcat

/-- C8: with a category filter set — the backend honouring its filter
contract on the semantic side — every returned document's category equals
the filter; and when the filter leaves no candidate at all, the search
returns the empty list, a normal non-error outcome. -/
theorem category_filter_sound (docs : DocTexts) (getScores : List String → List ℝ)
    (argsortDesc : List ℝ → List Nat) (query : String) (topK : Nat) (c : String)
    (alpha : ℝ) (semHits : List Hit) (allUrls : List String)
    (hc : c ≠ "")
    (hsem : ∀ h ∈ semHits, h.category = c)
    (hvalid : ValidUrlOrder semHits
      (bm25_search docs getScores argsortDesc query SEMANTIC_TOP_K (some c)) allUrls) :
    (∀ d ∈ searchFrom docs semHits
        (bm25_search docs getScores argsortDesc query SEMANTIC_TOP_K (some c))
        allUrls topK alpha,
      d.category = c) ∧
    (∀ allUrls2 : List String, ValidUrlOrder [] [] allUrls2 →
      searchFrom docs [] [] allUrls2 topK alpha = []) := by
  constructor
  · intro d hd
    obtain ⟨u, hu, rfl⟩ := mem_searchFrom hd
    rw [toRetrieved_category, mkCandidate_category]
    have hmem : ∃ h ∈ semHits
        ++ bm25_search docs getScores argsortDesc query SEMANTIC_TOP_K (some c),
        h.source_url = u := by
      rcases (hvalid.2 u).mp hu with h | h
      · obtain ⟨-, h2, hh2, heq⟩ := (hasUrl_iff _ _).mp h
        exact ⟨h2, List.mem_append_left _ hh2, heq⟩
      · obtain ⟨-, h2, hh2, heq⟩ := (hasUrl_iff _ _).mp h
        exact ⟨h2, List.mem_append_right _ hh2, heq⟩
    obtain ⟨h2, hh2, heq⟩ := hmem
    have hfind : ∃ h3, (semHits
        ++ bm25_search docs getScores argsortDesc query SEMANTIC_TOP_K (some c)).find?
          (fun h => h.source_url == u) = some h3 := by
      rw [← Option.isSome_iff_exists]
      rw [List.find?_isSome]
      exact ⟨h2, hh2, by simp [heq]⟩
    obtain ⟨h3, hfind⟩ := hfind
    have hh3mem := List.mem_of_find?_eq_some hfind
    have hh3url : h3.source_url = u := by
      have := List.find?_some hfind
      simpa using this
    rw [urlMeta, hfind]
    rcases List.mem_append.mp hh3mem with h | h
    · exact hsem h3 h
    · exact bm25_search_category docs getScores argsortDesc query SEMANTIC_TOP_K c hc h3 h
  · intro allUrls2 hvalid2
    have hnil : allUrls2 = [] := by
      rw [List.eq_nil_iff_forall_not_mem]
      intro u hu
      rcases (hvalid2.2 u).mp hu with h | h <;>
        (rw [hasUrl_nil] at h; cases h)
    subst hnil
    simp [searchFrom, fusedSort, List.insertionSort]

/-- Witness for `category_filter_sound`: filter `"main"` against a corpus
whose only document has category `"main"`. -/
theorem category_filter_sound_witness :
    "main" ≠ "" ∧
    (toRetrieved [("u1", ⟨"T1", "X1", "main"⟩)]
      (mkCandidate [] [⟨"u1", "T1", "main", 5⟩] 0 "u1")).category = "main" := by
  have hfix := bm25_search_fixture_gen (some "main") (by decide)
  have hvalid : ValidUrlOrder []
      (bm25_search [("u1", ⟨"T1", "X1", "main"⟩)] (fun _ => [5]) (fun _ => [0]) "ab"
        SEMANTIC_TOP_K (some "main")) ["u1"] := by
    rw [hfix]
    exact validUrlOrder_single_bm ⟨"u1", "T1", "main", 5⟩ (by decide)
  have hmem : toRetrieved [("u1", ⟨"T1", "X1", "main"⟩)]
      (mkCandidate [] [⟨"u1", "T1", "main", 5⟩] 0 "u1")
      ∈ searchFrom [("u1", ⟨"T1", "X1", "main"⟩)] []
          (bm25_search [("u1", ⟨"T1", "X1", "main"⟩)] (fun _ => [5]) (fun _ => [0]) "ab"
            SEMANTIC_TOP_K (some "main"))
          ["u1"] 1 0 := by
    rw [hfix, searchFrom]
    simp [fusedSort_singleton]
  refine ⟨by decide, ?_⟩
  exact (category_filter_sound [("u1", ⟨"T1", "X1", "main"⟩)] (fun _ => [5])
    (fun _ => [0]) "ab" 1 "main" 0 [] ["u1"] (by decide) (by intro h hh; cases hh)
    hvalid).1 _ hmem

/-! ## Claim C2: tie-breaking and the set iteration order -/

/-- Two concrete semantic hits with equal similarity, used to exhibit an
exact hybrid-score tie. -/
def hitA : Hit := ⟨"a", "ta", "ca", 1⟩

/-- See `hitA`. -/
def hitB : Hit := ⟨"b", "tb", "cb", 1⟩

theorem cand_a_hybrid : (mkCandidate [hitA, hitB] [] 0 "a").hybrid_score = 1 := by
  rw [mkCandidate_hybrid]
  have h1 : normBm25Get [] "a" = 0 := rfl
  have h2 : normSemGet [hitA, hitB] "a" = max 0 1 := rfl
  have hm : max (0:ℝ) 1 = 1 := max_eq_right zero_le_one
  rw [h1, h2, hm, hm, min_eq_left zero_le_one]
  norm_num

theorem cand_b_hybrid : (mkCandidate [hitA, hitB] [] 0 "b").hybrid_score = 1 := by
  rw [mkCandidate_hybrid]
  have h1 : normBm25Get [] "b" = 0 := rfl
  have h2 : normSemGet [hitA, hitB] "b" = max 0 1 := rfl
  have hm : max (0:ℝ) 1 = 1 := max_eq_right zero_le_one
  rw [h1, h2, hm, hm, min_eq_left zero_le_one]
  norm_num

theorem hasUrl_AB_iff (u : String) :
    (hasUrl [hitA, hitB] u = true ∨ hasUrl [] u = true) ↔ (u = "a" ∨ u = "b") := by
  rw [hasUrl_nil]
  constructor
  · rintro (h | h)
    · obtain ⟨-, h2, hh2, heq⟩ := (hasUrl_iff _ _).mp h
      subst heq
      rcases List.mem_cons.mp hh2 with rfl | hh2
      · exact Or.inl rfl
      · rcases List.mem_singleton.mp hh2 with rfl
        exact Or.inr rfl
    · cases h
  · rintro (rfl | rfl)
    · exact Or.inl rfl
    · exact Or.inl rfl

/-- Stable insertion of the earlier element of a two-element list. -/
theorem fusedSort_pair (c1 c2 : FusedCandidate) (h : candLE c1 c2) :
    fusedSort [c1, c2] = [c1, c2] := by
  rw [fusedSort]
  have hs : List.insertionSort candLE [c2] = [c2] := by
    simp [List.insertionSort, List.orderedInsert]
  show List.orderedInsert candLE c1 (List.insertionSort candLE [c2]) = _
  rw [hs]
  simp only [List.orderedInsert]
  rw [if_pos h]

/-- C2 counterexample: with two URLs whose hybrid scores tie exactly, two
legitimate enumeration orders of the same URL set produce different
rankings — the order of tied results depends on the iteration order of the
unordered `all_urls` set, so no deterministic secondary key is applied. -/
theorem search_tie_depends_on_set_order :
    ValidUrlOrder [hitA, hitB] [] ["a", "b"] ∧
    ValidUrlOrder [hitA, hitB] [] ["b", "a"] ∧
    searchFrom [] [hitA, hitB] [] ["a", "b"] 2 0
      ≠ searchFrom [] [hitA, hitB] [] ["b", "a"] 2 0 := by
  have hvalid1 : ValidUrlOrder [hitA, hitB] [] ["a", "b"] := by
    refine ⟨by decide, fun u => ?_⟩
    rw [hasUrl_AB_iff]
    simp
  have hvalid2 : ValidUrlOrder [hitA, hitB] [] ["b", "a"] := by
    refine ⟨by decide, fun u => ?_⟩
    rw [hasUrl_AB_iff]
    simp only [List.mem_cons, List.mem_singleton, List.not_mem_nil, or_false]
    exact or_comm
  have hleAB : candLE (mkCandidate [hitA, hitB] [] 0 "a")
      (mkCandidate [hitA, hitB] [] 0 "b") := by
    rw [candLE, cand_a_hybrid, cand_b_hybrid]
  have hleBA : candLE (mkCandidate [hitA, hitB] [] 0 "b")
      (mkCandidate [hitA, hitB] [] 0 "a") := by
    rw [candLE, cand_a_hybrid, cand_b_hybrid]
  have hE1 : searchFrom [] [hitA, hitB] [] ["a", "b"] 2 0
      = [toRetrieved [] (mkCandidate [hitA, hitB] [] 0 "a"),
         toRetrieved [] (mkCandidate [hitA, hitB] [] 0 "b")] := by
    rw [searchFrom]
    show ((fusedSort [mkCandidate [hitA, hitB] [] 0 "a",
        mkCandidate [hitA, hitB] [] 0 "b"]).take 2).map (toRetrieved []) = _
    rw [fusedSort_pair _ _ hleAB]
    rfl
  have hE2 : searchFrom [] [hitA, hitB] [] ["b", "a"] 2 0
      = [toRetrieved [] (mkCandidate [hitA, hitB] [] 0 "b"),
         toRetrieved [] (mkCandidate [hitA, hitB] [] 0 "a")] := by
    rw [searchFrom]
    show ((fusedSort [mkCandidate [hitA, hitB] [] 0 "b",
        mkCandidate [hitA, hitB] [] 0 "a"]).take 2).map (toRetrieved []) = _
    rw [fusedSort_pair _ _ hleBA]
    rfl
  refine ⟨hvalid1, hvalid2, ?_⟩
  intro hEq
  rw [hE1, hE2] at hEq
  have h1 : toRetrieved [] (mkCandidate [hitA, hitB] [] 0 "a")
      = toRetrieved [] (mkCandidate [hitA, hitB] [] 0 "b") :=
    (List.cons.injEq _ _ _ _).mp hEq |>.1
  have h2 := congrArg RetrievedDocument.source_url h1
  rw [toRetrieved_source_url, toRetrieved_source_url, mkCandidate_url,
    mkCandidate_url] at h2
  exact absurd h2 (by decide)

/-- C2 amended: for a fixed enumeration `allUrls` of the URL set, `search`
is a pure function of its inputs, and exact ties are kept in the
enumeration order of that set (the descending sort is stable); the
tie-break key is the incidental set iteration order, not a deterministic
secondary key such as URL order. -/
theorem search_stable_tiebreak_by_enumeration (semHits bmHits : List Hit) (alpha : ℝ)
    (allUrls : List String) (u v : String)
    (hsub : List.Sublist [u, v] allUrls)
    (hle : (mkCandidate semHits bmHits alpha v).hybrid_score
      ≤ (mkCandidate semHits bmHits alpha u).hybrid_score) :
    List.Sublist
      [mkCandidate semHits bmHits alpha u, mkCandidate semHits bmHits alpha v]
      (fusedSort (allUrls.map (mkCandidate semHits bmHits alpha))) := by
  rw [fusedSort]
  refine List.pair_sublist_insertionSort hle ?_
  have h := hsub.map (mkCandidate semHits bmHits alpha)
  simpa using h

/-- Witness for `search_stable_tiebreak_by_enumeration` on the concrete
tied pair. -/
theorem search_stable_tiebreak_by_enumeration_witness :
    List.Sublist ["a", "b"] ["a", "b"] ∧
    List.Sublist
      [mkCandidate [hitA, hitB] [] 0 "a", mkCandidate [hitA, hitB] [] 0 "b"]
      (fusedSort (["a", "b"].map (mkCandidate [hitA, hitB] [] 0))) := by
  refine ⟨List.Sublist.refl _, ?_⟩
  exact search_stable_tiebreak_by_enumeration [hitA, hitB] [] 0 ["a", "b"] "a" "b"
    (List.Sublist.refl _) (by rw [cand_a_hybrid, cand_b_hybrid])

/-! ## Claim C1: the fusion formula and the spec's worked example -/

theorem sigmoid_193_gt : (0.9:ℝ) < sigmoid 1 3 19.3 := by
  have h2 : (17.3:ℝ) ≤ Real.exp 16.3 := by
    have h := Real.add_one_le_exp (16.3:ℝ)
    linarith
  have hpos := Real.exp_pos (16.3:ℝ)
  have he : Real.exp (-1 * ((19.3:ℝ) - 3)) = (Real.exp 16.3)⁻¹ := by
    rw [show (-1 * ((19.3:ℝ) - 3)) = -(16.3:ℝ) by norm_num, Real.exp_neg]
  have hinv : (Real.exp 16.3)⁻¹ ≤ (17.3:ℝ)⁻¹ :=
    inv_le_inv_of_le (by norm_num) h2
  have hinvpos : (0:ℝ) < (Real.exp 16.3)⁻¹ := inv_pos.mpr hpos
  rw [sigmoid, he, lt_div_iff (by linarith)]
  have h173 : ((17.3:ℝ))⁻¹ ≤ 0.06 := by norm_num
  nlinarith

theorem sigmoid_26_lt_half : sigmoid 1 3 2.6 < 1/2 := by
  have h : (1.4:ℝ) ≤ Real.exp (-1 * ((2.6:ℝ) - 3)) := by
    rw [show (-1 * ((2.6:ℝ) - 3)) = (0.4:ℝ) by norm_num]
    have h2 := Real.add_one_le_exp (0.4:ℝ)
    linarith
  have hpos := Real.exp_pos (-1 * ((2.6:ℝ) - 3))
  rw [sigmoid, div_lt_iff (by linarith)]
  linarith

/-- C1: every fused candidate's score is
`max(bm25_norm, sem_norm) + alpha * min(bm25_norm, sem_norm)`; and in the
spec's worked example (`k = 1`, `x0 = 3`, `alpha = 0.5`; D1 with raw
lexical score 19.3 and similarity 0.90, D2 with raw lexical score 2.6 and
similarity 0.95) `search` ranks D1 above D2. -/
theorem fusion_formula_and_worked_example :
    (∀ (docs : DocTexts) (semHits bmHits : List Hit) (allUrls : List String)
        (topK : Nat) (alpha : ℝ),
      (searchFrom docs semHits bmHits allUrls topK alpha).Forall
        (fun d => d.score
          = max d.bm25_norm d.sem_norm + alpha * min d.bm25_norm d.sem_norm)) ∧
    (search [("D1", ⟨"T1", "X1", "main"⟩), ("D2", ⟨"T2", "X2", "main"⟩)]
        (Except.ok [⟨"D1", "T1", "main", 0.9⟩, ⟨"D2", "T2", "main", 0.95⟩])
        (fun _ => [19.3, 2.6]) (fun _ => [0, 1]) "ab" 2 none (1/2)
        ["D1", "D2"]).map RetrievedDocument.source_url = ["D1", "D2"] := by
  constructor
  · intro docs semHits bmHits allUrls topK alpha
    rw [List.forall_iff_forall_mem]
    intro d hd
    obtain ⟨u, hu, rfl⟩ := mem_searchFrom hd
    simp only [toRetrieved_score, toRetrieved_bm25, toRetrieved_sem,
      mkCandidate_hybrid, mkCandidate_bm25, mkCandidate_sem]
  · have hbm : bm25_search [("D1", ⟨"T1", "X1", "main"⟩), ("D2", ⟨"T2", "X2", "main"⟩)]
        (fun _ => [19.3, 2.6]) (fun _ => [0, 1]) "ab" SEMANTIC_TOP_K none
        = [⟨"D1", "T1", "main", 19.3⟩, ⟨"D2", "T2", "main", 2.6⟩] := by
      show (if tokenize "ab" = ([] : List String) then ([] : List Hit)
          else bm25Go [("D1", ⟨"T1", "X1", "main"⟩), ("D2", ⟨"T2", "X2", "main"⟩)]
            [(19.3:ℝ), 2.6] SEMANTIC_TOP_K none [0, 1] []) = _
      rw [if_neg (show ¬(tokenize "ab" = ([] : List String)) by decide)]
      rw [bm25Go_eq]
      rw [List.takeWhile_cons,
        decide_eq_false (show ¬(([(19.3:ℝ), 2.6]).getD 0 0 ≤ 0) from by
          show ¬((19.3:ℝ) ≤ 0); norm_num)]
      simp only [Bool.not_false, reduceIte]
      rw [List.takeWhile_cons,
        decide_eq_false (show ¬(([(19.3:ℝ), 2.6]).getD 1 0 ≤ 0) from by
          show ¬((2.6:ℝ) ≤ 0); norm_num)]
      simp only [Bool.not_false, reduceIte]
      rw [List.takeWhile_nil]
      rfl
    have hd1 : dictScore [⟨"D1", "T1", "main", (19.3:ℝ)⟩, ⟨"D2", "T2", "main", 2.6⟩] "D1"
        = 19.3 := by
      rw [show dictScore [⟨"D1", "T1", "main", (19.3:ℝ)⟩, ⟨"D2", "T2", "main", 2.6⟩] "D1"
          = max 0 19.3 from rfl]
      exact max_eq_right (by norm_num)
    have hd2 : dictScore [⟨"D1", "T1", "main", (19.3:ℝ)⟩, ⟨"D2", "T2", "main", 2.6⟩] "D2"
        = 2.6 := by
      rw [show dictScore [⟨"D1", "T1", "main", (19.3:ℝ)⟩, ⟨"D2", "T2", "main", 2.6⟩] "D2"
          = max 0 2.6 from rfl]
      exact max_eq_right (by norm_num)
    have hb1 : normBm25Get [⟨"D1", "T1", "main", (19.3:ℝ)⟩, ⟨"D2", "T2", "main", 2.6⟩] "D1"
        = sigmoid 1 3 19.3 := by
      rw [show normBm25Get [⟨"D1", "T1", "main", (19.3:ℝ)⟩, ⟨"D2", "T2", "main", 2.6⟩] "D1"
          = sigmoid 1 3 (dictScore [⟨"D1", "T1", "main", (19.3:ℝ)⟩,
            ⟨"D2", "T2", "main", 2.6⟩] "D1") from rfl, hd1]
    have hb2 : normBm25Get [⟨"D1", "T1", "main", (19.3:ℝ)⟩, ⟨"D2", "T2", "main", 2.6⟩] "D2"
        = sigmoid 1 3 2.6 := by
      rw [show normBm25Get [⟨"D1", "T1", "main", (19.3:ℝ)⟩, ⟨"D2", "T2", "main", 2.6⟩] "D2"
          = sigmoid 1 3 (dictScore [⟨"D1", "T1", "main", (19.3:ℝ)⟩,
            ⟨"D2", "T2", "main", 2.6⟩] "D2") from rfl, hd2]
    have hs1 : normSemGet [⟨"D1", "T1", "main", (0.9:ℝ)⟩, ⟨"D2", "T2", "main", 0.95⟩] "D1"
        = 0.9 := by
      rw [show normSemGet [⟨"D1", "T1", "main", (0.9:ℝ)⟩, ⟨"D2", "T2", "main", 0.95⟩] "D1"
          = max 0 0.9 from rfl]
      exact max_eq_right (by norm_num)
    have hs2 : normSemGet [⟨"D1", "T1", "main", (0.9:ℝ)⟩, ⟨"D2", "T2", "main", 0.95⟩] "D2"
        = 0.95 := by
      rw [show normSemGet [⟨"D1", "T1", "main", (0.9:ℝ)⟩, ⟨"D2", "T2", "main", 0.95⟩] "D2"
          = max 0 0.95 from rfl]
      exact max_eq_right (by norm_num)
    have hybrid1 : (mkCandidate [⟨"D1", "T1", "main", (0.9:ℝ)⟩, ⟨"D2", "T2", "main", 0.95⟩]
        [⟨"D1", "T1", "main", (19.3:ℝ)⟩, ⟨"D2", "T2", "main", 2.6⟩] (1/2) "D1").hybrid_score
        = sigmoid 1 3 19.3 + (1/2) * 0.9 := by
      rw [mkCandidate_hybrid, hb1, hs1, max_eq_left sigmoid_193_gt.le,
        min_eq_right sigmoid_193_gt.le]
    have hybrid2 : (mkCandidate [⟨"D1", "T1", "main", (0.9:ℝ)⟩, ⟨"D2", "T2", "main", 0.95⟩]
        [⟨"D1", "T1", "main", (19.3:ℝ)⟩, ⟨"D2", "T2", "main", 2.6⟩] (1/2) "D2").hybrid_score
        = 0.95 + (1/2) * sigmoid 1 3 2.6 := by
      have hlt : sigmoid 1 3 2.6 ≤ 0.95 := by
        have := sigmoid_26_lt_half
        linarith
      rw [mkCandidate_hybrid, hb2, hs2, max_eq_right hlt, min_eq_left hlt]
    have hle : candLE (mkCandidate [⟨"D1", "T1", "main", (0.9:ℝ)⟩, ⟨"D2", "T2", "main", 0.95⟩]
        [⟨"D1", "T1", "main", (19.3:ℝ)⟩, ⟨"D2", "T2", "main", 2.6⟩] (1/2) "D1")
        (mkCandidate [⟨"D1", "T1", "main", (0.9:ℝ)⟩, ⟨"D2", "T2", "main", 0.95⟩]
        [⟨"D1", "T1", "main", (19.3:ℝ)⟩, ⟨"D2", "T2", "main", 2.6⟩] (1/2) "D2") := by
      rw [candLE, hybrid1, hybrid2]
      have ha := sigmoid_193_gt
      have hb := sigmoid_26_lt_half
      linarith
    rw [search, hbm,
      show semantic_search (Except.ok [⟨"D1", "T1", "main", (0.9:ℝ)⟩,
        ⟨"D2", "T2", "main", 0.95⟩]) = [⟨"D1", "T1", "main", (0.9:ℝ)⟩,
        ⟨"D2", "T2", "main", 0.95⟩] from rfl]
    rw [searchFrom]
    show List.map RetrievedDocument.source_url
        (((fusedSort [mkCandidate [⟨"D1", "T1", "main", (0.9:ℝ)⟩, ⟨"D2", "T2", "main", 0.95⟩]
            [⟨"D1", "T1", "main", (19.3:ℝ)⟩, ⟨"D2", "T2", "main", 2.6⟩] (1/2) "D1",
          mkCandidate [⟨"D1", "T1", "main", (0.9:ℝ)⟩, ⟨"D2", "T2", "main", 0.95⟩]
            [⟨"D1", "T1", "main", (19.3:ℝ)⟩, ⟨"D2", "T2", "main", 2.6⟩] (1/2) "D2"]).take 2).map
          (toRetrieved [("D1", ⟨"T1", "X1", "main"⟩), ("D2", ⟨"T2", "X2", "main"⟩)]))
        = ["D1", "D2"]
    rw [fusedSort_pair _ _ hle]
    rfl

/-! ## Claim C4: request validation -/

/-- C4 counterexample: an unknown category value is not rejected —
validation succeeds, the category is silently coerced to `None`, and the
request proceeds to an unfiltered search instead of failing. -/
theorem unknown_category_not_rejected :
    validateAskRequest "q" 5 (some "bogus") = Except.ok ⟨"q", 5, none⟩ ∧
    askRoute (fun _ => []) "q" 5 (some "bogus") = Except.ok [] := by
  constructor
  · rfl
  · rfl

/-- C4 amended: a `top_k` outside `[1, 20]` is rejected before any search
executes (the failure does not depend on the search function) and surfaced
as a validation failure; an unknown category value, however, is not
rejected — the `clean_category` validator coerces it to `None` and the
request proceeds with the category filter dropped. -/
theorem topk_rejected_unknown_category_coerced
    (q : String) (k : Int) (c : Option String)
    (ds : AskRequest → List RetrievedDocument) :
    ((k < 1 ∨ 20 < k) → ∃ msg, askRoute ds q k c = Except.error msg) ∧
    (∀ s : String, 1 ≤ q.length → q.length ≤ 1000 → 1 ≤ k → k ≤ 20 →
      pyStrip s ∉ VALID_CATEGORIES →
      askRoute ds q k (some s) = Except.ok (ds ⟨q, k, none⟩)) := by
  constructor
  · intro hk
    rw [askRoute, validateAskRequest]
    by_cases h1 : q.length < 1
    · rw [if_pos h1]
      exact ⟨_, rfl⟩
    · rw [if_neg h1]
      by_cases h2 : 1000 < q.length
      · rw [if_pos h2]
        exact ⟨_, rfl⟩
      · rw [if_neg h2]
        rcases hk with hk | hk
        · rw [if_pos hk]
          exact ⟨_, rfl⟩
        · rw [if_neg (by omega), if_pos hk]
          exact ⟨_, rfl⟩
  · intro s h1 h2 h3 h4 hs
    rw [askRoute, validateAskRequest,
      if_neg (by omega), if_neg (by omega), if_neg (by omega), if_neg (by omega)]
    have hclean : clean_category (some s) = none := by
      show (if pyStrip s = "" ∨ pyStrip s ∉ VALID_CATEGORIES then none
            else some (pyStrip s)) = none
      rw [if_pos (Or.inr hs)]
    rw [hclean]

/-- Witness for `topk_rejected_unknown_category_coerced` at `top_k = 0`
(rejected) and at the unknown category `"bogus"` (coerced to `None`). -/
theorem topk_rejected_unknown_category_coerced_witness :
    ((0:Int) < 1 ∨ 20 < (0:Int)) ∧
    (∃ msg, askRoute (fun _ => []) "q" 0 none = Except.error msg) ∧
    pyStrip "bogus" ∉ VALID_CATEGORIES ∧
    askRoute (fun _ => []) "q" 5 (some "bogus")
      = Except.ok ((fun _ => ([] : List RetrievedDocument))
          (⟨"q", 5, none⟩ : AskRequest)) := by
  refine ⟨Or.inl (by decide), ?_, by decide, ?_⟩
  · exact (topk_rejected_unknown_category_coerced "q" 0 none (fun _ => [])).1
      (Or.inl (by decide))
  · exact (topk_rejected_unknown_category_coerced "q" 5 (some "bogus") (fun _ => [])).2
      "bogus" (by decide) (by decide) (by decide) (by decide) (by decide)

end DeptRAG
